import Mathlib

/-!
Shallow embedding of the notebooks `03_autoencoders.ipynb` and
`04_attention.ipynb` of the repository, together with proofs about the
embedded code.

Real-valued tensors are modelled with rational entries.  The exponential
used inside `torch.nn.functional.softmax` is not computable on the
rationals, so the softmax is parametrised by a function `f` standing for
the exponential; the only property of the exponential any statement below
relies on is strict positivity, which appears as an explicit hypothesis
where it is needed.

Two tensor models are used.  Claims about the algebra of the hand-rolled
self-attention layer use `Matrix (Fin m) (Fin n) ℚ` for one batch sample,
every torch call mirrored by a definition of its own.  Claims about tensor
shapes and the training loops use lists of lists, so that a shape is a
runtime property of a value exactly as it is for a torch tensor.
-/

namespace Notebooks

/-- Embedding of `torch.matmul` on the last two dimensions of a batched
tensor: one batch sample is a matrix, and the product is the usual row by
column sum. -/
def torchMatmul {m n p : ℕ} (A : Matrix (Fin m) (Fin n) ℚ)
    (B : Matrix (Fin n) (Fin p) ℚ) : Matrix (Fin m) (Fin p) ℚ :=
  fun i k => ∑ j, A i j * B j k

/-- Embedding of `torch.transpose(t, -1, -2)`: swap the last two
dimensions of the tensor. -/
def torchTransposeLast {m n : ℕ} (A : Matrix (Fin m) (Fin n) ℚ) :
    Matrix (Fin n) (Fin m) ℚ :=
  fun j i => A i j

/-- Embedding of `torch.nn.functional.softmax(A, dim=-2)` on one batch
sample: entry `(i, j)` becomes `f (A i j)` normalised by the sum of `f`
over the whole column `j`, because dimension `-2` of a `(batch, m, n)`
tensor is the row index `i`.  `f` stands for the exponential. -/
def softmaxDimNeg2 {m n : ℕ} (f : ℚ → ℚ) (A : Matrix (Fin m) (Fin n) ℚ) :
    Matrix (Fin m) (Fin n) ℚ :=
  fun i j => f (A i j) / ∑ i', f (A i' j)

/-- Embedding of `torch.nn.Conv1d(c, o, kernel_size=1, bias=False)` acting
on a `(c, l)` sample: with a size-1 kernel and no bias this is exactly a
matrix product of the `(o, c)` weight with the input. -/
def conv1dKernel1 {o c l : ℕ} (W : Matrix (Fin o) (Fin c) ℚ)
    (x : Matrix (Fin c) (Fin l) ℚ) : Matrix (Fin o) (Fin l) ℚ :=
  torchMatmul W x

/-- Parameters of the `SelfAttention` module of `04_attention.ipynb`: three
1x1 convolutions without bias, stored as their weight matrices.  `conv_Q`
and `conv_K` map `in_channels` to `key_channels`, `conv_V` maps
`in_channels` to `out_channels`. -/
structure SelfAttention (in_channels out_channels key_channels : ℕ) where
  conv_Q : Matrix (Fin key_channels) (Fin in_channels) ℚ
  conv_K : Matrix (Fin key_channels) (Fin in_channels) ℚ
  conv_V : Matrix (Fin out_channels) (Fin in_channels) ℚ

/-- Embedding of `SelfAttention.forward` from `04_attention.ipynb`, one
batch sample at a time, mirroring the source line by line:
`Q = conv_Q(x)`, `K = conv_K(x)`, `V = conv_V(x)`,
`K_t = transpose(K, -1, -2)`, `A_ = matmul(Q, K_t)`,
`A = softmax(A_, dim=-2)`, `y = matmul(A, V)`.
The final `matmul(A, V)` forces `out_channels = key_channels`, which is how
the notebook instantiates the module. -/
def SelfAttention.forward {ic kc l : ℕ} (f : ℚ → ℚ)
    (m : SelfAttention ic kc kc) (x : Matrix (Fin ic) (Fin l) ℚ) :
    Matrix (Fin kc) (Fin l) ℚ :=
  let Q := conv1dKernel1 m.conv_Q x
  let K := conv1dKernel1 m.conv_K x
  let V := conv1dKernel1 m.conv_V x
  let K_t := torchTransposeLast K
  let A' := torchMatmul Q K_t
  let A := softmaxDimNeg2 f A'
  torchMatmul A V

/-- The normalised score matrix `A` computed inside
`SelfAttention.forward`: the softmax over `dim=-2` of `matmul(Q, K_t)`. -/
def SelfAttention.attentionMatrix {ic kc l : ℕ} (f : ℚ → ℚ)
    (m : SelfAttention ic kc kc) (x : Matrix (Fin ic) (Fin l) ℚ) :
    Matrix (Fin kc) (Fin kc) ℚ :=
  softmaxDimNeg2 f
    (torchMatmul (conv1dKernel1 m.conv_Q x)
      (torchTransposeLast (conv1dKernel1 m.conv_K x)))

/-- Written from the words of claim C1, not from the source: scaled
dot-product attention in which the scores `matmul(Q, K_t)` are divided by
`s`, where `s` stands for the square root of `key_channels`, before the
softmax normalisation, and the output is the normalised score matrix times
`V`. -/
def specScaledAttention {ic kc l : ℕ} (f : ℚ → ℚ) (s : ℚ)
    (m : SelfAttention ic kc kc) (x : Matrix (Fin ic) (Fin l) ℚ) :
    Matrix (Fin kc) (Fin l) ℚ :=
  let Q := conv1dKernel1 m.conv_Q x
  let K := conv1dKernel1 m.conv_K x
  let V := conv1dKernel1 m.conv_V x
  let scores := fun i j => torchMatmul Q (torchTransposeLast K) i j / s
  torchMatmul (softmaxDimNeg2 f scores) V

/-- Written from the words of claim C3 and the spec glossary, not from the
source: positional self-attention, in which the output at sequence
position `i` is a weighted combination of the value vectors at all
sequence positions `j`, the weight of position `j` being the softmax over
`j` of the similarity between query column `i` and key column `j`. -/
def specPositionalAttention {ic kc l : ℕ} (f : ℚ → ℚ)
    (m : SelfAttention ic kc kc) (x : Matrix (Fin ic) (Fin l) ℚ) :
    Matrix (Fin kc) (Fin l) ℚ :=
  let Q := conv1dKernel1 m.conv_Q x
  let K := conv1dKernel1 m.conv_K x
  let V := conv1dKernel1 m.conv_V x
  fun c i =>
    ∑ j, (f (∑ d, Q d i * K d j) / ∑ j', f (∑ d, Q d i * K d j')) * V c j

/-- Stand-in for the exponential in concrete calculations: a strictly
positive computable function on the rationals. -/
def fexp : ℚ → ℚ := fun q => 1 + q * q

theorem fexp_pos (q : ℚ) : 0 < fexp q := by
  have h : (0 : ℚ) ≤ q * q := mul_self_nonneg q
  unfold fexp
  linarith

/-- Concrete `SelfAttention` instance with `key_channels = 4` (so that the
square root of `key_channels` is the rational number 2), used to compare
the code with the scaled formula of claim C1. -/
def exAmodel : SelfAttention 1 4 4 := ⟨!![0; 2; 0; 0], !![1; 0; 0; 0], !![1; 0; 0; 0]⟩

/-- Concrete one-channel, length-one input for `exAmodel`. -/
def exAx : Matrix (Fin 1) (Fin 1) ℚ := !![1]

/-- Concrete `SelfAttention` instance with `key_channels = 2` whose
attention matrix has a row that does not sum to 1. -/
def exBmodel : SelfAttention 1 2 2 := ⟨!![0; 1], !![1; 1], !![1; 0]⟩

/-- Concrete one-channel, length-one input for `exBmodel`. -/
def exBx : Matrix (Fin 1) (Fin 1) ℚ := !![1]

/-- Concrete `SelfAttention` instance with zero query and key weights and
identity value weights: its attention matrix is constant, so its forward
pass is the identity on the input. -/
def exCmodel : SelfAttention 1 1 1 := ⟨!![0], !![0], !![1]⟩

/-- Concrete length-two input for `exCmodel`. -/
def exCx : Matrix (Fin 1) (Fin 2) ℚ := !![3, 5]

/-- A second length-two input for `exCmodel`, differing from `exCx` only
at sequence position 1. -/
def exCx' : Matrix (Fin 1) (Fin 2) ℚ := !![3, 7]

/-- C1 (counterexample): the forward pass differs from the scaled
dot-product attention formula of the claim.  With `key_channels = 4` the
claimed scaling factor is `1 / sqrt 4 = 1 / 2`; at the concrete input the
code produces `5/8` at entry `(1, 0)` while the scaled formula produces
`2/5`, so the two functions are not equal. -/
theorem C1_counterexample :
    (2 : ℚ) * 2 = 4 ∧
    SelfAttention.forward fexp exAmodel exAx 1 0 = 5/8 ∧
    specScaledAttention fexp 2 exAmodel exAx 1 0 = 2/5 ∧
    SelfAttention.forward fexp exAmodel exAx ≠ specScaledAttention fexp 2 exAmodel exAx := by
  have h1 : SelfAttention.forward fexp exAmodel exAx 1 0 = 5/8 := by
    simp [SelfAttention.forward, conv1dKernel1, torchMatmul, torchTransposeLast,
      softmaxDimNeg2, fexp, exAmodel, exAx, Fin.sum_univ_succ]
    norm_num
  have h2 : specScaledAttention fexp 2 exAmodel exAx 1 0 = 2/5 := by
    simp [specScaledAttention, conv1dKernel1, torchMatmul, torchTransposeLast,
      softmaxDimNeg2, fexp, exAmodel, exAx, Fin.sum_univ_succ]
    norm_num
  refine ⟨by norm_num, h1, h2, fun h => ?_⟩
  have h3 := congrFun (congrFun h 1) 0
  rw [h1, h2] at h3
  norm_num at h3

/-- C1 (amended): `SelfAttention.forward` computes unscaled dot-product
attention.  With queries, keys and values obtained by the 1x1 convolution
projections, the output equals the softmax normalisation of the score
matrix `Q * K.transpose` multiplied by `V`, with no `1 / sqrt key_channels`
scaling of the scores.  The right hand side is written with the Mathlib
matrix product and transpose. -/
theorem C1_forward_is_unscaled_attention {ic kc l : ℕ} (f : ℚ → ℚ)
    (m : SelfAttention ic kc kc) (x : Matrix (Fin ic) (Fin l) ℚ) :
    SelfAttention.forward f m x =
      softmaxDimNeg2 f ((m.conv_Q * x) * Matrix.transpose (m.conv_K * x)) * (m.conv_V * x) := by
  funext i j
  simp [SelfAttention.forward, conv1dKernel1, torchMatmul, torchTransposeLast,
    softmaxDimNeg2, Matrix.mul_apply, Matrix.transpose_apply, mul_comm]

/-- C2 (counterexample): a row of the attention matrix need not sum to 1.
At a concrete model and input, the weights applied to the value vectors
for query position 0, namely row 0 of the attention matrix, sum to `2/3`. -/
theorem C2_counterexample :
    ∑ j, SelfAttention.attentionMatrix fexp exBmodel exBx 0 j ≠ 1 := by
  simp [SelfAttention.attentionMatrix, conv1dKernel1, torchMatmul, torchTransposeLast,
    softmaxDimNeg2, fexp, exBmodel, exBx, Fin.sum_univ_succ]
  norm_num

/-- C2 (amended): the softmax over `dim=-2` normalises over the query
index, not over the attended index: every column of the attention matrix
sums to exactly 1 (for a positive exponential and at least one channel),
and the forward output is the attention matrix multiplied by `V`.  Rows,
which hold the weights applied to the value vectors for one query
position, need not sum to 1. -/
theorem C2_column_stochastic {ic kc l : ℕ} (f : ℚ → ℚ) (hf : ∀ q, 0 < f q)
    (hkc : 0 < kc) (m : SelfAttention ic kc kc) (x : Matrix (Fin ic) (Fin l) ℚ) :
    (∀ j, ∑ i, SelfAttention.attentionMatrix f m x i j = 1) ∧
    SelfAttention.forward f m x =
      torchMatmul (SelfAttention.attentionMatrix f m x) (conv1dKernel1 m.conv_V x) := by
  haveI : Nonempty (Fin kc) := Fin.pos_iff_nonempty.mp hkc
  constructor
  · intro j
    have hpos : 0 < ∑ i', f (torchMatmul (conv1dKernel1 m.conv_Q x)
        (torchTransposeLast (conv1dKernel1 m.conv_K x)) i' j) :=
      Finset.sum_pos (fun i _ => hf _) Finset.univ_nonempty
    simp only [SelfAttention.attentionMatrix, softmaxDimNeg2]
    rw [← Finset.sum_div]
    exact div_self hpos.ne'
  · rfl

/-- C2 (witness): the amended claim instantiated at a concrete positive
exponential, model and input: column 0 of the attention matrix sums
to 1. -/
theorem C2_witness :
    (∀ q : ℚ, 0 < fexp q) ∧ 0 < 2 ∧
    ∑ i, SelfAttention.attentionMatrix fexp exBmodel exBx i 0 = 1 :=
  ⟨fexp_pos, by norm_num,
    (C2_column_stochastic fexp fexp_pos (by norm_num) exBmodel exBx).1 0⟩

/-- C3 (counterexample): the output of `SelfAttention.forward` at a
sequence position is not a weighted combination of the value vectors at
all sequence positions.  With zero query and key weights and identity
value weights, the forward pass maps `!![3, 5]` and `!![3, 7]` to
themselves: the two inputs differ at position 1 yet the outputs agree at
position 0, so position 1 contributes nothing to output position 0; the
positional attention formula of the claim would instead produce 4 at
position 0. -/
theorem C3_counterexample :
    exCx 0 1 ≠ exCx' 0 1 ∧
    SelfAttention.forward fexp exCmodel exCx 0 0 = 3 ∧
    SelfAttention.forward fexp exCmodel exCx' 0 0 = 3 ∧
    specPositionalAttention fexp exCmodel exCx 0 0 = 4 ∧
    SelfAttention.forward fexp exCmodel exCx ≠ specPositionalAttention fexp exCmodel exCx := by
  have h1 : SelfAttention.forward fexp exCmodel exCx 0 0 = 3 := by
    simp [SelfAttention.forward, conv1dKernel1, torchMatmul, torchTransposeLast,
      softmaxDimNeg2, fexp, exCmodel, exCx, Fin.sum_univ_succ]
  have h2 : SelfAttention.forward fexp exCmodel exCx' 0 0 = 3 := by
    simp [SelfAttention.forward, conv1dKernel1, torchMatmul, torchTransposeLast,
      softmaxDimNeg2, fexp, exCmodel, exCx', Fin.sum_univ_succ]
  have h3 : specPositionalAttention fexp exCmodel exCx 0 0 = 4 := by
    simp [specPositionalAttention, conv1dKernel1, torchMatmul, torchTransposeLast,
      fexp, exCmodel, exCx, Fin.sum_univ_succ]
    norm_num
  refine ⟨by simp [exCx, exCx'], h1, h2, h3, fun h => ?_⟩
  have h4 := congrFun (congrFun h 0) 0
  rw [h1, h3] at h4
  norm_num at h4

/-- C3 (amended): no masking is applied, every attention weight is
strictly positive; but the score matrix is channels by channels, so the
output at a sequence position `j` is a weighted combination of the value
entries at that same position only: if two inputs have equal query and key
projections and equal value projections in column `j`, the outputs agree
in column `j` no matter how the values at the other positions differ. -/
theorem C3_no_mask_but_value_locality {ic kc l : ℕ} (f : ℚ → ℚ)
    (hf : ∀ q, 0 < f q) (hkc : 0 < kc)
    (m : SelfAttention ic kc kc) (x x' : Matrix (Fin ic) (Fin l) ℚ) (j : Fin l)
    (hQ : conv1dKernel1 m.conv_Q x = conv1dKernel1 m.conv_Q x')
    (hK : conv1dKernel1 m.conv_K x = conv1dKernel1 m.conv_K x')
    (hV : ∀ c, conv1dKernel1 m.conv_V x c j = conv1dKernel1 m.conv_V x' c j) :
    (∀ i c, 0 < SelfAttention.attentionMatrix f m x i c) ∧
    (∀ i, SelfAttention.forward f m x i j = SelfAttention.forward f m x' i j) := by
  haveI : Nonempty (Fin kc) := Fin.pos_iff_nonempty.mp hkc
  constructor
  · intro i c
    have hpos : 0 < ∑ i', f (torchMatmul (conv1dKernel1 m.conv_Q x)
        (torchTransposeLast (conv1dKernel1 m.conv_K x)) i' c) :=
      Finset.sum_pos (fun i _ => hf _) Finset.univ_nonempty
    simp only [SelfAttention.attentionMatrix, softmaxDimNeg2]
    exact div_pos (hf _) hpos
  · intro i
    simp only [SelfAttention.forward]
    rw [hQ, hK]
    simp only [torchMatmul]
    exact Finset.sum_congr rfl fun c _ => by rw [hV c]

/-- C3 (witness): the amended claim instantiated at the concrete instance:
the two inputs `!![3, 5]` and `!![3, 7]` have equal query, key and
column-0 value projections under `exCmodel`, so the outputs agree at
position 0. -/
theorem C3_witness :
    (∀ q : ℚ, 0 < fexp q) ∧
    (∀ i, SelfAttention.forward fexp exCmodel exCx i 0 =
      SelfAttention.forward fexp exCmodel exCx' i 0) := by
  have hQ : conv1dKernel1 exCmodel.conv_Q exCx = conv1dKernel1 exCmodel.conv_Q exCx' := by
    funext a b
    simp [conv1dKernel1, torchMatmul, exCmodel, exCx, exCx', Fin.sum_univ_succ]
  have hK : conv1dKernel1 exCmodel.conv_K exCx = conv1dKernel1 exCmodel.conv_K exCx' := by
    funext a b
    simp [conv1dKernel1, torchMatmul, exCmodel, exCx, exCx', Fin.sum_univ_succ]
  have hV : ∀ c, conv1dKernel1 exCmodel.conv_V exCx c 0 =
      conv1dKernel1 exCmodel.conv_V exCx' c 0 := by
    intro c
    simp [conv1dKernel1, torchMatmul, exCmodel, exCx, exCx', Fin.sum_univ_succ]
  exact ⟨fexp_pos,
    (C3_no_mask_but_value_locality fexp fexp_pos (by norm_num) exCmodel exCx exCx' 0
      hQ hK hV).2⟩

/-- A list-of-rows tensor has matrix shape `c` by `l` when it has `c` rows
that all have length `l`.  This mirrors the runtime shape of one batch
sample of a `(batch, c, l)` torch tensor. -/
def isMat (c l : ℕ) (m : List (List ℚ)) : Prop :=
  m.length = c ∧ ∀ r ∈ m, r.length = l

instance isMat.dec (c l : ℕ) (m : List (List ℚ)) : Decidable (isMat c l m) := by
  unfold isMat
  infer_instance

/-- A batched 3-D tensor has shape `(b, c, l)` when it has `b` samples of
matrix shape `c` by `l`. -/
def isMat3 (b c l : ℕ) (t : List (List (List ℚ))) : Prop :=
  t.length = b ∧ ∀ s ∈ t, isMat c l s

instance isMat3.dec (b c l : ℕ) (t : List (List (List ℚ))) : Decidable (isMat3 b c l t) := by
  unfold isMat3
  infer_instance

/-- The shape tuple of a 2-D list tensor, as `torch.Tensor.shape` reports
it for a rectangular `(batch, l)` tensor. -/
def shape2 (m : List (List ℚ)) : List ℕ :=
  [m.length, (m.headD []).length]

/-- The shape tuple of a 3-D list tensor, as `torch.Tensor.shape` reports
it for a rectangular `(batch, c, l)` tensor. -/
def shape3 (t : List (List (List ℚ))) : List ℕ :=
  [t.length, (t.headD []).length, ((t.headD []).headD []).length]

/-- Zero padding of one row on both sides, as `torch.nn.Conv1d` applies
it before the sliding dot product. -/
def pad1 (p : ℕ) (r : List ℚ) : List ℚ :=
  List.replicate p 0 ++ r ++ List.replicate p 0

/-- Output length of `torch.nn.Conv1d` with kernel size `k`, padding `p`
and stride `s` on input length `L`. -/
def convOutLen (L k p s : ℕ) : ℕ :=
  (L + 2 * p - k) / s + 1

/-- Embedding of `torch.nn.Conv1d(cin, cout, k, padding=p, stride=s)` on
one `(cin, L)` sample.  The weight `W` is indexed `[out][in][tap]` and the
bias holds one entry per output channel; an empty bias list models
`bias=False`. -/
def conv1d (W : List (List (List ℚ))) (bias : List ℚ) (k p s : ℕ)
    (x : List (List ℚ)) : List (List ℚ) :=
  let L := (x.headD []).length
  (List.range W.length).map fun o =>
    (List.range (convOutLen L k p s)).map fun pos =>
      bias.getD o 0 +
        ((List.range x.length).map fun i =>
          ((List.range k).map fun t =>
            ((W.getD o []).getD i []).getD t 0 *
              (pad1 p (x.getD i [])).getD (s * pos + t) 0).sum).sum

/-- Output length of `torch.nn.ConvTranspose1d` with kernel size `k`,
padding `p`, stride `s` and output padding `op` on input length `L`. -/
def convTOutLen (L k p s op : ℕ) : ℕ :=
  (L - 1) * s + k + op - 2 * p

/-- Embedding of `torch.nn.ConvTranspose1d(cin, cout, k, padding=p,
stride=s, output_padding=op)` on one `(cin, L)` sample.  The weight `W` is
indexed `[in][out][tap]`; output position `pos` collects the contribution
`W[i][o][t] * x[i][j]` exactly when `pos + p = s * j + t`. -/
def convT1d (W : List (List (List ℚ))) (bias : List ℚ) (k p s op : ℕ)
    (x : List (List ℚ)) : List (List ℚ) :=
  let L := (x.headD []).length
  (List.range ((W.headD []).length)).map fun o =>
    (List.range (convTOutLen L k p s op)).map fun pos =>
      bias.getD o 0 +
        ((List.range x.length).map fun i =>
          ((List.range L).map fun j =>
            ((List.range k).map fun t =>
              if pos + p = s * j + t then
                ((W.getD i []).getD o []).getD t 0 * (x.getD i []).getD j 0
              else 0).sum).sum).sum

/-- Embedding of `torch.nn.ReLU` on one 2-D sample. -/
def relu2 (x : List (List ℚ)) : List (List ℚ) :=
  x.map fun r => r.map fun q => max q 0

/-- Embedding of `torch.unsqueeze(x, dim=1)` on a 2-D `(batch, l)`
tensor: every sample becomes a one-channel matrix. -/
def unsqueeze1 (x : List (List ℚ)) : List (List (List ℚ)) :=
  x.map fun r => [r]

/-- Embedding of `torch.transpose(m, -1, -2)` on one list sample. -/
def transposeL (m : List (List ℚ)) : List (List ℚ) :=
  (List.range ((m.headD []).length)).map fun j => m.map fun r => r.getD j 0

/-- Embedding of `torch.matmul` on one pair of list samples. -/
def matmulL (A B : List (List ℚ)) : List (List ℚ) :=
  A.map fun r =>
    (List.range ((B.headD []).length)).map fun j =>
      ((List.range B.length).map fun t => r.getD t 0 * (B.getD t []).getD j 0).sum

/-- Embedding of `torch.nn.functional.softmax(m, dim=-2)` on one list
sample: each entry is normalised by the sum of `f` over its column. -/
def softmaxColsL (f : ℚ → ℚ) (M : List (List ℚ)) : List (List ℚ) :=
  M.map fun r =>
    (List.range r.length).map fun j =>
      f (r.getD j 0) / (M.map fun rr => f (rr.getD j 0)).sum

theorem isMat.head_length {c l : ℕ} {x : List (List ℚ)} (hx : isMat c l x)
    (hc : 0 < c) : (x.headD []).length = l := by
  obtain ⟨hlen, hrows⟩ := hx
  cases x with
  | nil => simp at hlen; omega
  | cons r t => exact hrows r (by simp)

theorem isMat.head'_length {c l : ℕ} {x : List (List ℚ)} (hx : isMat c l x)
    (hc : 0 < c) : (x.head?.getD []).length = l := by
  rw [← List.headD_eq_head?]
  exact hx.head_length hc

theorem conv1d_shape {W : List (List (List ℚ))} {bias : List ℚ} {k p s : ℕ}
    {x : List (List ℚ)} {c L : ℕ} (hx : isMat c L x) (hc : 0 < c) :
    isMat W.length (convOutLen L k p s) (conv1d W bias k p s x) := by
  have hhead := hx.head'_length hc
  constructor
  · simp [conv1d]
  · intro r hr
    simp only [conv1d, List.mem_map, List.mem_range] at hr
    obtain ⟨o, _, rfl⟩ := hr
    simp [hhead]

theorem convT1d_shape {W : List (List (List ℚ))} {bias : List ℚ}
    {k p s op : ℕ} {x : List (List ℚ)} {c L : ℕ} (hx : isMat c L x) (hc : 0 < c) :
    isMat ((W.headD []).length) (convTOutLen L k p s op) (convT1d W bias k p s op x) := by
  have hhead := hx.head'_length hc
  constructor
  · simp [convT1d]
  · intro r hr
    simp only [convT1d, List.mem_map, List.mem_range] at hr
    obtain ⟨o, _, rfl⟩ := hr
    simp [hhead]

theorem relu2_shape {c l : ℕ} {x : List (List ℚ)} (hx : isMat c l x) :
    isMat c l (relu2 x) := by
  obtain ⟨hlen, hrows⟩ := hx
  constructor
  · simp [relu2, hlen]
  · intro r hr
    simp only [relu2, List.mem_map] at hr
    obtain ⟨r', hr', rfl⟩ := hr
    simp [hrows r' hr']

theorem transposeL_shape {a b : ℕ} {m : List (List ℚ)} (hm : isMat a b m)
    (ha : 0 < a) : isMat b a (transposeL m) := by
  have hhead := hm.head'_length ha
  constructor
  · simp [transposeL, hhead]
  · intro r hr
    simp only [transposeL, List.mem_map, List.mem_range] at hr
    obtain ⟨j, _, rfl⟩ := hr
    simp [hm.1]

theorem matmulL_shape {a b c : ℕ} {A B : List (List ℚ)} (hA : A.length = a)
    (hB : isMat b c B) (hb : 0 < b) : isMat a c (matmulL A B) := by
  have hhead := hB.head'_length hb
  constructor
  · simp [matmulL, hA]
  · intro r hr
    simp only [matmulL, List.mem_map, List.mem_range] at hr
    obtain ⟨r', _, rfl⟩ := hr
    simp [hhead]

theorem softmaxColsL_shape {c l : ℕ} {f : ℚ → ℚ} {M : List (List ℚ)}
    (hM : isMat c l M) : isMat c l (softmaxColsL f M) := by
  obtain ⟨hlen, hrows⟩ := hM
  constructor
  · simp [softmaxColsL, hlen]
  · intro r hr
    simp only [softmaxColsL, List.mem_map] at hr
    obtain ⟨r', hr', rfl⟩ := hr
    simp [hrows r' hr']

theorem flatten_length {c l : ℕ} {x : List (List ℚ)} (hx : isMat c l x) :
    x.flatten.length = c * l := by
  obtain ⟨hlen, hrows⟩ := hx
  induction x generalizing c with
  | nil => simp [← hlen]
  | cons r t ih =>
    cases c with
    | zero => simp at hlen
    | succ c' =>
      have ht : t.length = c' := by simpa using hlen
      have hr : r.length = l := hrows r (by simp)
      have hrest := ih ht (fun r' hr' => hrows r' (List.mem_cons_of_mem r hr'))
      simp [hr, hrest, Nat.succ_mul, Nat.add_comm]

/-- Parameters of the list-tensor version of the `SelfAttention` module:
the same three bias-free kernel-size-1 convolutions, with weights indexed
`[out][in][tap]` as `conv1d` expects. -/
structure SelfAttentionL where
  conv_Q : List (List (List ℚ))
  conv_K : List (List (List ℚ))
  conv_V : List (List (List ℚ))

/-- Embedding of `SelfAttention.forward` on one list sample, line for
line as in the source: the three kernel-1 convolutions, the transpose of
`K`, the score product, the softmax over `dim=-2` and the final product
with `V`. -/
def SelfAttentionL.forward (f : ℚ → ℚ) (m : SelfAttentionL)
    (x : List (List ℚ)) : List (List ℚ) :=
  let Q := conv1d m.conv_Q [] 1 0 1 x
  let K := conv1d m.conv_K [] 1 0 1 x
  let V := conv1d m.conv_V [] 1 0 1 x
  let K_t := transposeL K
  let A' := matmulL Q K_t
  let A := softmaxColsL f A'
  matmulL A V

/-- Parameters of `RegressionFCN` from `04_attention.ipynb`: `num_layers`
convolutions of kernel size `ksize` (each followed by a ReLU), given as a
list of weight and bias pairs, then a final kernel-size-1 convolution back
to `inshape[0]` channels. -/
structure RegressionFCN where
  layers : List (List (List (List ℚ)) × List ℚ)
  finalW : List (List (List ℚ))
  finalB : List ℚ

/-- Embedding of `RegressionFCN.forward` on one sample: each hidden layer
applies its convolution with `padding = ksize / 2` and `stride = 1`
followed by a ReLU, and the final kernel-1 convolution closes the
network. -/
def RegressionFCN.forwardSample (k : ℕ) (m : RegressionFCN)
    (x : List (List ℚ)) : List (List ℚ) :=
  conv1d m.finalW m.finalB 1 0 1
    (m.layers.foldl (fun acc Wb => relu2 (conv1d Wb.1 Wb.2 k (k / 2) 1 acc)) x)

/-- Embedding of `RegressionFCN.forward` on a batch: torch applies the
same per-sample computation to every element of the batch dimension. -/
def RegressionFCN.forward (k : ℕ) (m : RegressionFCN)
    (xs : List (List (List ℚ))) : List (List (List ℚ)) :=
  xs.map (RegressionFCN.forwardSample k m)

/-- Parameters of `CustomAttn` from `04_attention.ipynb`:
`Conv1d(inshape[0], num_channels, ksize, padding=ksize/2)`, ReLU,
`SelfAttention(num_channels, num_channels, num_channels)`, ReLU,
`Conv1d(num_channels, num_channels, ksize, padding=ksize/2)`, and
`Conv1d(num_channels, inshape[0], 1)`. -/
structure CustomAttn where
  W1 : List (List (List ℚ))
  b1 : List ℚ
  attn : SelfAttentionL
  W2 : List (List (List ℚ))
  b2 : List ℚ
  W3 : List (List (List ℚ))
  b3 : List ℚ

/-- Embedding of `CustomAttn.forward` on one sample, applying the
sequential layers in source order. -/
def CustomAttn.forwardSample (f : ℚ → ℚ) (k : ℕ) (m : CustomAttn)
    (x : List (List ℚ)) : List (List ℚ) :=
  let a1 := relu2 (conv1d m.W1 m.b1 k (k / 2) 1 x)
  let a2 := relu2 (SelfAttentionL.forward f m.attn a1)
  let a3 := conv1d m.W2 m.b2 k (k / 2) 1 a2
  conv1d m.W3 m.b3 1 0 1 a3

/-- Embedding of `CustomAttn.forward` on a batch. -/
def CustomAttn.forward (f : ℚ → ℚ) (k : ℕ) (m : CustomAttn)
    (xs : List (List (List ℚ))) : List (List (List ℚ)) :=
  xs.map (CustomAttn.forwardSample f k m)

/-- A tensor that is either 2-D `(batch, length)` or 3-D
`(batch, channels, length)`: the encoder and decoder of
`03_autoencoders.ipynb` dispatch on `len(x.shape)` at runtime. -/
inductive T23 where
  | t2 : List (List ℚ) → T23
  | t3 : List (List (List ℚ)) → T23

/-- Parameters of `MyEncoder` from `03_autoencoders.ipynb` at its default
configuration `nlayers = 3`, `nchannels = 16`:
`Conv1d(1, 16, 5, padding=2, stride=2)`, ReLU,
`Conv1d(16, 16, 5, padding=2, stride=2)`, ReLU,
`Conv1d(16, 1, 3, padding=1)`, then `Flatten`. -/
structure MyEncoder where
  c1W : List (List (List ℚ))
  c1b : List ℚ
  c2W : List (List (List ℚ))
  c2b : List ℚ
  c3W : List (List (List ℚ))
  c3b : List ℚ

/-- The sequential layers of `MyEncoder` on one 3-D sample, ending with
the flatten that turns the `(1, l)` channel map into a width-`l` row. -/
def MyEncoder.applySample (e : MyEncoder) (x : List (List ℚ)) : List ℚ :=
  let a1 := relu2 (conv1d e.c1W e.c1b 5 2 2 x)
  let a2 := relu2 (conv1d e.c2W e.c2b 5 2 2 a1)
  let a3 := conv1d e.c3W e.c3b 3 1 1 a2
  a3.flatten

/-- Embedding of `MyEncoder.forward`: a 2-D input is unsqueezed at
dimension 1 exactly as the source does before the layers run. -/
def MyEncoder.forward (e : MyEncoder) : T23 → List (List ℚ)
  | .t2 x => (unsqueeze1 x).map e.applySample
  | .t3 x => x.map e.applySample

/-- Parameters of `MyDecoder` from `03_autoencoders.ipynb` at its default
configuration `nlayers = 3`, `nchannels = 16`:
`ConvTranspose1d(1, 16, 5, padding=2, stride=2, output_padding=1)`, ReLU,
`ConvTranspose1d(16, 16, 5, padding=2, stride=2, output_padding=1)`, ReLU,
`Conv1d(16, 1, 3, padding=1)`. -/
structure MyDecoder where
  d1W : List (List (List ℚ))
  d1b : List ℚ
  d2W : List (List (List ℚ))
  d2b : List ℚ
  d3W : List (List (List ℚ))
  d3b : List ℚ

/-- The sequential layers of `MyDecoder` on one 3-D sample. -/
def MyDecoder.applySample (d : MyDecoder) (x : List (List ℚ)) : List (List ℚ) :=
  let a1 := relu2 (convT1d d.d1W d.d1b 5 2 2 1 x)
  let a2 := relu2 (convT1d d.d2W d.d2b 5 2 2 1 a1)
  conv1d d.d3W d.d3b 3 1 1 a2

/-- Embedding of `MyDecoder.forward`: a 2-D input is unsqueezed at
dimension 1 exactly as the source does before the layers run. -/
def MyDecoder.forward (d : MyDecoder) : T23 → List (List (List ℚ))
  | .t2 x => (unsqueeze1 x).map d.applySample
  | .t3 x => x.map d.applySample

/-- Parameters of `MyAutoencoder` from `03_autoencoders.ipynb`: an
encoder and a decoder. -/
structure MyAutoencoder where
  enc : MyEncoder
  dec : MyDecoder

/-- Embedding of `MyAutoencoder.forward`: the latents `h = enc(x)` (a 2-D
`(batch, latent)` tensor after the encoder flatten) are fed to the
decoder, which returns the 3-D reconstruction. -/
def MyAutoencoder.forward (a : MyAutoencoder) (x : T23) : List (List (List ℚ)) :=
  let h := a.enc.forward x
  a.dec.forward (.t2 h)

theorem convOutLen_odd {L k : ℕ} (hk : k % 2 = 1) (hL : 0 < L) :
    convOutLen L k (k / 2) 1 = L := by
  unfold convOutLen
  rw [Nat.div_one]
  omega

theorem convOutLen_one {L : ℕ} (hL : 0 < L) : convOutLen L 1 0 1 = L := by
  unfold convOutLen
  rw [Nat.div_one]
  omega

theorem convRelu_shape {W : List (List (List ℚ))} {bias : List ℚ} {k : ℕ}
    (hk : k % 2 = 1) {x : List (List ℚ)} {c L : ℕ} (hx : isMat c L x)
    (hc : 0 < c) (hL : 0 < L) :
    isMat W.length L (relu2 (conv1d W bias k (k / 2) 1 x)) := by
  have h := @conv1d_shape W bias k (k / 2) 1 _ _ _ hx hc
  rw [convOutLen_odd hk hL] at h
  exact relu2_shape h

theorem foldConvRelu_shape {k : ℕ} (hk : k % 2 = 1)
    (ls : List (List (List (List ℚ)) × List ℚ))
    (hls : ∀ Wb ∈ ls, 0 < Wb.1.length) {L : ℕ} (hL : 0 < L) :
    ∀ {x : List (List ℚ)} {C : ℕ}, 0 < C → isMat C L x →
      ∃ c', 0 < c' ∧
        isMat c' L (ls.foldl (fun acc Wb => relu2 (conv1d Wb.1 Wb.2 k (k / 2) 1 acc)) x) := by
  induction ls with
  | nil => exact fun hC hx => ⟨_, hC, hx⟩
  | cons Wb t ih =>
    intro x C hC hx
    simp only [List.foldl_cons]
    exact ih (fun w hw => hls w (List.mem_cons_of_mem Wb hw))
      (hls Wb (List.mem_cons_self Wb t)) (convRelu_shape hk hx hC hL)

theorem regressionFCN_sample_shape {k : ℕ} (hk : k % 2 = 1) (m : RegressionFCN)
    (hlayers : ∀ Wb ∈ m.layers, 0 < Wb.1.length) {C L : ℕ} (hC : 0 < C)
    (hL : 0 < L) {x : List (List ℚ)} (hx : isMat C L x) :
    isMat m.finalW.length L (RegressionFCN.forwardSample k m x) := by
  obtain ⟨c', hc', hmat⟩ := foldConvRelu_shape hk m.layers hlayers hL hC hx
  have h := @conv1d_shape m.finalW m.finalB 1 0 1 _ _ _ hmat hc'
  rw [convOutLen_one hL] at h
  exact h

theorem selfAttentionL_shape (f : ℚ → ℚ) (m : SelfAttentionL) {C L n : ℕ}
    (hn : 0 < n) (hQ : m.conv_Q.length = n) (hK : m.conv_K.length = n)
    (hV : m.conv_V.length = n) {x : List (List ℚ)} (hC : 0 < C) (hL : 0 < L)
    (hx : isMat C L x) :
    isMat n L (SelfAttentionL.forward f m x) := by
  have hQm : isMat n L (conv1d m.conv_Q [] 1 0 1 x) := by
    have h := @conv1d_shape m.conv_Q [] 1 0 1 _ _ _ hx hC
    rw [convOutLen_one hL, hQ] at h
    exact h
  have hKm : isMat n L (conv1d m.conv_K [] 1 0 1 x) := by
    have h := @conv1d_shape m.conv_K [] 1 0 1 _ _ _ hx hC
    rw [convOutLen_one hL, hK] at h
    exact h
  have hVm : isMat n L (conv1d m.conv_V [] 1 0 1 x) := by
    have h := @conv1d_shape m.conv_V [] 1 0 1 _ _ _ hx hC
    rw [convOutLen_one hL, hV] at h
    exact h
  have hKt := transposeL_shape hKm hn
  have hA' := matmulL_shape hQm.1 hKt hL
  have hA := @softmaxColsL_shape _ _ f _ hA'
  have hy := matmulL_shape hA.1 hVm hn
  simpa [SelfAttentionL.forward] using hy

theorem customAttn_sample_shape (f : ℚ → ℚ) {k : ℕ} (hk : k % 2 = 1)
    (m : CustomAttn) {n : ℕ} (hn : 0 < n) (hW1 : m.W1.length = n)
    (hQ : m.attn.conv_Q.length = n) (hK : m.attn.conv_K.length = n)
    (hV : m.attn.conv_V.length = n) (hW2 : m.W2.length = n)
    {C L : ℕ} (hC : 0 < C) (hL : 0 < L) {x : List (List ℚ)} (hx : isMat C L x) :
    isMat m.W3.length L (CustomAttn.forwardSample f k m x) := by
  have h1 : isMat n L (relu2 (conv1d m.W1 m.b1 k (k / 2) 1 x)) := by
    have h := @convRelu_shape m.W1 m.b1 k hk _ _ _ hx hC hL
    rwa [hW1] at h
  have h2 : isMat n L (relu2 (SelfAttentionL.forward f m.attn
      (relu2 (conv1d m.W1 m.b1 k (k / 2) 1 x)))) :=
    relu2_shape (selfAttentionL_shape f m.attn hn hQ hK hV hn hL h1)
  have h3 : isMat n L (conv1d m.W2 m.b2 k (k / 2) 1 (relu2 (SelfAttentionL.forward f m.attn
      (relu2 (conv1d m.W1 m.b1 k (k / 2) 1 x))))) := by
    have h := @conv1d_shape m.W2 m.b2 k (k / 2) 1 _ _ _ h2 hn
    rw [convOutLen_odd hk hL, hW2] at h
    exact h
  have h4 := @conv1d_shape m.W3 m.b3 1 0 1 _ _ _ h3 hn
  rw [convOutLen_one hL] at h4
  simpa [CustomAttn.forwardSample] using h4

/-- C4: for every batch of `(C, L)` samples with `C` the configured input
channel count, both `RegressionFCN.forward` and `CustomAttn.forward`
return a batch of the same length whose samples all have shape `(C, L)`
again, so the inline assertion `output.shape == first_y.shape` succeeds
whenever inputs and targets share one shape.  The hypotheses record the
constructed architecture: an odd kernel size with `padding = ksize / 2`,
nonempty hidden layers, and final convolutions back to `C` channels. -/
theorem C4_shape_preserved (f : ℚ → ℚ) {k : ℕ} (hk : k % 2 = 1)
    {C L : ℕ} (hC : 0 < C) (hL : 0 < L)
    (fcn : RegressionFCN) (hlayers : ∀ Wb ∈ fcn.layers, 0 < Wb.1.length)
    (hWf : fcn.finalW.length = C)
    (att : CustomAttn) {n : ℕ} (hn : 0 < n) (hW1 : att.W1.length = n)
    (hQ : att.attn.conv_Q.length = n) (hK : att.attn.conv_K.length = n)
    (hV : att.attn.conv_V.length = n) (hW2 : att.W2.length = n)
    (hW3 : att.W3.length = C)
    (xs : List (List (List ℚ))) (hxs : ∀ s ∈ xs, isMat C L s) :
    isMat3 xs.length C L (RegressionFCN.forward k fcn xs) ∧
    isMat3 xs.length C L (CustomAttn.forward f k att xs) := by
  constructor
  · constructor
    · simp [RegressionFCN.forward]
    · intro smp hs
      simp only [RegressionFCN.forward, List.mem_map] at hs
      obtain ⟨s0, hs0, rfl⟩ := hs
      have h := regressionFCN_sample_shape hk fcn hlayers hC hL (hxs s0 hs0)
      rwa [hWf] at h
  · constructor
    · simp [CustomAttn.forward]
    · intro smp hs
      simp only [CustomAttn.forward, List.mem_map] at hs
      obtain ⟨s0, hs0, rfl⟩ := hs
      have h := customAttn_sample_shape f hk att hn hW1 hQ hK hV hW2 hC hL (hxs s0 hs0)
      rwa [hW3] at h

/-- Concrete one-layer `RegressionFCN` instance used to witness C4. -/
def exFcn : RegressionFCN := ⟨[([[[0, 0, 0, 0, 0]]], [0])], [[[0]]], [0]⟩

/-- Concrete `CustomAttn` instance with one channel used to witness C4. -/
def exAtt : CustomAttn :=
  ⟨[[[0, 0, 0, 0, 0]]], [0], ⟨[[[0]]], [[[0]]], [[[0]]]⟩, [[[0, 0, 0, 0, 0]]], [0], [[[0]]], [0]⟩

/-- Concrete one-sample batch of shape `(1, 1, 1)` used to witness C4. -/
def exXs : List (List (List ℚ)) := [[[0]]]

/-- C4 (witness): the shape preservation theorem instantiated at a
concrete batch, architecture and kernel size 5. -/
theorem C4_witness :
    5 % 2 = 1 ∧ (∀ s ∈ exXs, isMat 1 1 s) ∧
    isMat3 exXs.length 1 1 (RegressionFCN.forward 5 exFcn exXs) ∧
    isMat3 exXs.length 1 1 (CustomAttn.forward fexp 5 exAtt exXs) := by
  have h := @C4_shape_preserved fexp 5 (by decide) 1 1
    (by decide) (by decide) exFcn (by decide) (by decide) exAtt 1
    (by decide) (by decide) (by decide) (by decide) (by decide) (by decide)
    (by decide) exXs (by decide)
  exact ⟨by decide, by decide, h.1, h.2⟩

/-- Well-formedness of `MyEncoder` parameters at the default
configuration: the channel counts the constructor creates.  Only the
counts that determine output shapes are recorded. -/
def MyEncoder.wf (e : MyEncoder) : Prop :=
  e.c1W.length = 16 ∧ e.c2W.length = 16 ∧ e.c3W.length = 1

instance MyEncoder.wf.dec (e : MyEncoder) : Decidable (MyEncoder.wf e) := by
  unfold MyEncoder.wf
  infer_instance

/-- Well-formedness of `MyDecoder` parameters at the default
configuration.  `ConvTranspose1d` weights are indexed `[in][out][tap]`, so
the output channel count of the two transposed convolutions is the length
of the first inner list. -/
def MyDecoder.wf (d : MyDecoder) : Prop :=
  (d.d1W.headD []).length = 16 ∧ (d.d2W.headD []).length = 16 ∧ d.d3W.length = 1

instance MyDecoder.wf.dec (d : MyDecoder) : Decidable (MyDecoder.wf d) := by
  unfold MyDecoder.wf
  infer_instance

theorem myEncoder_sample_shape (e : MyEncoder) (hwf : MyEncoder.wf e)
    {x : List (List ℚ)} (hx : isMat 1 40 x) :
    (e.applySample x).length = 10 := by
  obtain ⟨h1, h2, h3⟩ := hwf
  have s1 : isMat 16 20 (relu2 (conv1d e.c1W e.c1b 5 2 2 x)) := by
    have h := @conv1d_shape e.c1W e.c1b 5 2 2 _ _ _ hx (by norm_num)
    rw [show convOutLen 40 5 2 2 = 20 from by decide, h1] at h
    exact relu2_shape h
  have s2 : isMat 16 10 (relu2 (conv1d e.c2W e.c2b 5 2 2
      (relu2 (conv1d e.c1W e.c1b 5 2 2 x)))) := by
    have h := @conv1d_shape e.c2W e.c2b 5 2 2 _ _ _ s1 (by norm_num)
    rw [show convOutLen 20 5 2 2 = 10 from by decide, h2] at h
    exact relu2_shape h
  have s3 : isMat 1 10 (conv1d e.c3W e.c3b 3 1 1 (relu2 (conv1d e.c2W e.c2b 5 2 2
      (relu2 (conv1d e.c1W e.c1b 5 2 2 x))))) := by
    have h := @conv1d_shape e.c3W e.c3b 3 1 1 _ _ _ s2 (by norm_num)
    rw [show convOutLen 10 3 1 1 = 10 from by decide, h3] at h
    exact h
  have hlen := flatten_length s3
  simpa [MyEncoder.applySample] using hlen

theorem myEncoder_forward_shape_t2 (e : MyEncoder) (hwf : MyEncoder.wf e)
    {b : ℕ} {x : List (List ℚ)} (hx : isMat b 40 x) :
    isMat b 10 (MyEncoder.forward e (T23.t2 x)) := by
  constructor
  · simp [MyEncoder.forward, unsqueeze1, hx.1]
  · intro r hr
    simp only [MyEncoder.forward, unsqueeze1, List.map_map, List.mem_map,
      Function.comp_apply] at hr
    obtain ⟨r0, hr0, rfl⟩ := hr
    have hr0m : isMat 1 40 [r0] := by
      refine ⟨rfl, ?_⟩
      intro rr hrr
      have : rr = r0 := by simpa using hrr
      rw [this]
      exact hx.2 r0 hr0
    exact myEncoder_sample_shape e hwf hr0m

theorem myEncoder_forward_shape_t3 (e : MyEncoder) (hwf : MyEncoder.wf e)
    {b : ℕ} {x : List (List (List ℚ))} (hx : isMat3 b 1 40 x) :
    isMat b 10 (MyEncoder.forward e (T23.t3 x)) := by
  constructor
  · simp [MyEncoder.forward, hx.1]
  · intro r hr
    simp only [MyEncoder.forward, List.mem_map] at hr
    obtain ⟨s0, hs0, rfl⟩ := hr
    exact myEncoder_sample_shape e hwf (hx.2 s0 hs0)

theorem myDecoder_sample_shape (d : MyDecoder) (hwf : MyDecoder.wf d)
    {x : List (List ℚ)} (hx : isMat 1 10 x) :
    isMat 1 40 (d.applySample x) := by
  obtain ⟨h1, h2, h3⟩ := hwf
  have s1 : isMat 16 20 (relu2 (convT1d d.d1W d.d1b 5 2 2 1 x)) := by
    have h := @convT1d_shape d.d1W d.d1b 5 2 2 1 _ _ _ hx (by norm_num)
    rw [show convTOutLen 10 5 2 2 1 = 20 from by decide, h1] at h
    exact relu2_shape h
  have s2 : isMat 16 40 (relu2 (convT1d d.d2W d.d2b 5 2 2 1
      (relu2 (convT1d d.d1W d.d1b 5 2 2 1 x)))) := by
    have h := @convT1d_shape d.d2W d.d2b 5 2 2 1 _ _ _ s1 (by norm_num)
    rw [show convTOutLen 20 5 2 2 1 = 40 from by decide, h2] at h
    exact relu2_shape h
  have s3 := @conv1d_shape d.d3W d.d3b 3 1 1 _ _ _ s2 (by norm_num)
  rw [show convOutLen 40 3 1 1 = 40 from by decide, h3] at s3
  simpa [MyDecoder.applySample] using s3

theorem myDecoder_forward_shape_t2 (d : MyDecoder) (hwf : MyDecoder.wf d)
    {b : ℕ} {h : List (List ℚ)} (hh : isMat b 10 h) :
    isMat3 b 1 40 (MyDecoder.forward d (T23.t2 h)) := by
  constructor
  · simp [MyDecoder.forward, unsqueeze1, hh.1]
  · intro smp hs
    simp only [MyDecoder.forward, unsqueeze1, List.map_map, List.mem_map,
      Function.comp_apply] at hs
    obtain ⟨r0, hr0, rfl⟩ := hs
    have hr0m : isMat 1 10 [r0] := by
      refine ⟨rfl, ?_⟩
      intro rr hrr
      have : rr = r0 := by simpa using hrr
      rw [this]
      exact hh.2 r0 hr0
    exact myDecoder_sample_shape d hwf hr0m

/-- C9: `MyEncoder.forward` and `MyDecoder.forward` accept 2-D inputs by
inserting a channel dimension: on every 2-D input the result equals the
forward pass on the 3-D tensor obtained by `unsqueeze` at dimension 1. -/
theorem C9_unsqueeze_equiv (e : MyEncoder) (d : MyDecoder) (x : List (List ℚ)) :
    MyEncoder.forward e (T23.t2 x) = MyEncoder.forward e (T23.t3 (unsqueeze1 x)) ∧
    MyDecoder.forward d (T23.t2 x) = MyDecoder.forward d (T23.t3 (unsqueeze1 x)) :=
  ⟨rfl, rfl⟩

/-- C6: `MyAutoencoder.forward` is exactly the decoder applied to the
encoder output, and at the default configuration the encoder maps a width
40 input batch (2-D or 3-D) to a latent of width 10, strictly smaller
than 40. -/
theorem C6_bottleneck (a : MyAutoencoder) (hwf : MyEncoder.wf a.enc)
    {b : ℕ} {x2 : List (List ℚ)} (hx2 : isMat b 40 x2)
    {x3 : List (List (List ℚ))} (hx3 : isMat3 b 1 40 x3) :
    (∀ y : T23, MyAutoencoder.forward a y =
      MyDecoder.forward a.dec (T23.t2 (MyEncoder.forward a.enc y))) ∧
    isMat b 10 (MyEncoder.forward a.enc (T23.t2 x2)) ∧
    isMat b 10 (MyEncoder.forward a.enc (T23.t3 x3)) ∧
    10 < 40 :=
  ⟨fun _ => rfl, myEncoder_forward_shape_t2 a.enc hwf hx2,
    myEncoder_forward_shape_t3 a.enc hwf hx3, by norm_num⟩

/-- Concrete zero-weight `MyEncoder` with the default channel counts. -/
def exEnc : MyEncoder :=
  ⟨List.replicate 16 [List.replicate 5 0], List.replicate 16 0,
    List.replicate 16 (List.replicate 16 (List.replicate 5 0)), List.replicate 16 0,
    [List.replicate 16 (List.replicate 3 0)], [0]⟩

/-- Concrete zero-weight `MyDecoder` with the default channel counts. -/
def exDec : MyDecoder :=
  ⟨[List.replicate 16 (List.replicate 5 0)], List.replicate 16 0,
    List.replicate 16 (List.replicate 16 (List.replicate 5 0)), List.replicate 16 0,
    [List.replicate 16 (List.replicate 3 0)], [0]⟩

/-- Concrete zero-weight `MyAutoencoder`. -/
def exAE : MyAutoencoder := ⟨exEnc, exDec⟩

/-- Concrete 2-D input batch of shape `(1, 40)`. -/
def exX2 : List (List ℚ) := [List.replicate 40 0]

/-- Concrete 3-D input batch of shape `(1, 1, 40)`. -/
def exX3 : List (List (List ℚ)) := [[List.replicate 40 0]]

/-- C6 (witness): the bottleneck theorem at the concrete zero
autoencoder and a concrete `(1, 40)` batch. -/
theorem C6_witness :
    MyEncoder.wf exAE.enc ∧ isMat 1 40 exX2 ∧
    isMat 1 10 (MyEncoder.forward exAE.enc (T23.t2 exX2)) ∧
    MyAutoencoder.forward exAE (T23.t2 exX2) =
      MyDecoder.forward exAE.dec (T23.t2 (MyEncoder.forward exAE.enc (T23.t2 exX2))) := by
  have h := C6_bottleneck exAE (by decide) (by decide : isMat 1 40 exX2)
    (by decide : isMat3 1 1 40 exX3)
  exact ⟨by decide, by decide, h.2.1, h.1 (T23.t2 exX2)⟩

/-- C5 (amended): for a well-formed default-configuration autoencoder, a
3-D input of shape `(b, 1, 40)` is mapped to an output of the same shape
`(b, 1, 40)`; a 2-D input of shape `(b, 40)` is also mapped to a 3-D
output of shape `(b, 1, 40)`, which equals the input shape only after
squeezing the channel dimension, exactly as the notebook asserts with
`Xt_prime.squeeze(1).shape == Xtest.shape`. -/
theorem C5_shape_amended (a : MyAutoencoder) (hwfE : MyEncoder.wf a.enc)
    (hwfD : MyDecoder.wf a.dec) {b : ℕ}
    {x2 : List (List ℚ)} (hx2 : isMat b 40 x2)
    {x3 : List (List (List ℚ))} (hx3 : isMat3 b 1 40 x3) :
    isMat3 b 1 40 (MyAutoencoder.forward a (T23.t3 x3)) ∧
    isMat3 b 1 40 (MyAutoencoder.forward a (T23.t2 x2)) := by
  have h3 := myEncoder_forward_shape_t3 a.enc hwfE hx3
  have h2 := myEncoder_forward_shape_t2 a.enc hwfE hx2
  exact ⟨myDecoder_forward_shape_t2 a.dec hwfD h3, myDecoder_forward_shape_t2 a.dec hwfD h2⟩

/-- C5 (witness): the amended shape theorem at the concrete zero
autoencoder and concrete `(1, 1, 40)` and `(1, 40)` batches. -/
theorem C5_witness :
    MyEncoder.wf exAE.enc ∧ MyDecoder.wf exAE.dec ∧
    isMat3 1 1 40 (MyAutoencoder.forward exAE (T23.t3 exX3)) ∧
    isMat3 1 1 40 (MyAutoencoder.forward exAE (T23.t2 exX2)) := by
  have h := C5_shape_amended exAE (by decide) (by decide)
    (by decide : isMat 1 40 exX2) (by decide : isMat3 1 1 40 exX3)
  exact ⟨by decide, by decide, h.1, h.2⟩

/-- C5 (counterexample): on the 2-D input `(1, 40)` the output of
`MyAutoencoder.forward` is 3-D with shape `(1, 1, 40)`, which is not the
input shape `(1, 40)`: the claim fails for 2-D inputs. -/
theorem C5_counterexample :
    shape2 exX2 = [1, 40] ∧
    shape3 (MyAutoencoder.forward exAE (T23.t2 exX2)) = [1, 1, 40] ∧
    ([1, 1, 40] : List ℕ) ≠ [1, 40] := by
  refine ⟨by decide, ?_, by decide⟩
  decide

/-- The results dictionary returned by both training loops of the
notebooks, holding one recorded mean per epoch in each list. -/
structure Results where
  train_losses : List ℚ
  test_losses : List ℚ

/-- Mean of a list of recorded per-batch losses, as `torch.Tensor.mean`
computes it on the tensor holding the recorded values. -/
def listMean (l : List ℚ) : ℚ :=
  l.sum / l.length

/-- One training epoch: fold over the train batches, recording every
batch's loss computed with the model state current when the batch is
seen, before the optimiser step updates the state — the source stores
`loss.item()` of the loss whose backward pass drives `opt.step()`.
Returns the state after the epoch and the recorded losses in order. -/
def runTrainEpoch {σ β : Type} (step : σ → β → σ) (lossOf : σ → β → ℚ) :
    List β → σ → σ × List ℚ
  | [], s => (s, [])
  | b :: bs, s =>
    let rest := runTrainEpoch step lossOf bs (step s b)
    (rest.1, lossOf s b :: rest.2)

/-- The model state at the start of epoch `e`: the initial state advanced
by `e` full passes over the train batches. -/
def epochState {σ β : Type} (step : σ → β → σ) (trainB : List β) (s0 : σ) : ℕ → σ
  | 0 => s0
  | e + 1 => trainB.foldl step (epochState step trainB s0 e)

/-- The common skeleton of `train_autoencoder` and `train_regression`:
for each of `max_epochs` epochs, run one training epoch recording the
per-batch train losses, evaluate every test batch with the state reached
at the end of the epoch (the evaluation loop does not change the state),
and append the mean of each recorded tensor to the results.  Returns the
final model state — the source mutates the model in place — with the
results dictionary. -/
def trainLoop {σ β : Type} (step : σ → β → σ) (lossTrain lossTest : σ → β → ℚ)
    (trainB testB : List β) : ℕ → σ → σ × Results
  | 0, s => (s, ⟨[], []⟩)
  | n + 1, s =>
    let ep := runTrainEpoch step lossTrain trainB s
    let ts := testB.map (lossTest ep.1)
    let rest := trainLoop step lossTrain lossTest trainB testB n ep.1
    (rest.1, ⟨listMean ep.2 :: rest.2.train_losses, listMean ts :: rest.2.test_losses⟩)

/-- Embedding of `train_autoencoder` from `03_autoencoders.ipynb`.
Batches are `(X, y)` pairs; the loop unpacks `(X, _)` and both the train
loss and the test loss compare the model output on `X` against `X`
itself.  The backward pass and `opt.step()` are abstracted into the state
update `optStep`, applied after the loss of the batch is recorded. -/
def train_autoencoder {σ α γ : Type} (modelF : σ → α → α) (crit : α → α → ℚ)
    (optStep : σ → α × γ → σ) (trainB testB : List (α × γ)) (max_epochs : ℕ)
    (s0 : σ) : σ × Results :=
  trainLoop optStep (fun s b => crit (modelF s b.1) b.1)
    (fun s b => crit (modelF s b.1) b.1) trainB testB max_epochs s0

/-- Embedding of `train_regression` from `04_attention.ipynb`.  The train
loss compares the model output on `X` against the target `y`; the test
loss is computed by the source line `loss_ = crit(X_prime_test, X_test)`,
comparing the model output on `X_test` against `X_test` itself. -/
def train_regression {σ α : Type} (modelF : σ → α → α) (crit : α → α → ℚ)
    (optStep : σ → α × α → σ) (trainB testB : List (α × α)) (max_epochs : ℕ)
    (s0 : σ) : σ × Results :=
  trainLoop optStep (fun s b => crit (modelF s b.1) b.2)
    (fun s b => crit (modelF s b.1) b.1) trainB testB max_epochs s0

theorem runTrainEpoch_fst {σ β : Type} (step : σ → β → σ) (lossOf : σ → β → ℚ) :
    ∀ (bs : List β) (s : σ), (runTrainEpoch step lossOf bs s).1 = bs.foldl step s := by
  intro bs
  induction bs with
  | nil => intro s; rfl
  | cons b t ih => intro s; simp only [runTrainEpoch, List.foldl_cons]; exact ih (step s b)

theorem epochState_shift {σ β : Type} (step : σ → β → σ) (trainB : List β)
    (s0 : σ) (e : ℕ) :
    epochState step trainB (trainB.foldl step s0) e = epochState step trainB s0 (e + 1) := by
  induction e with
  | zero => rfl
  | succ e ih =>
    simp only [epochState]
    rw [ih]
    rfl

theorem trainLoop_fst {σ β : Type} (step : σ → β → σ) (lossTrain lossTest : σ → β → ℚ)
    (trainB testB : List β) :
    ∀ (n : ℕ) (s0 : σ),
      (trainLoop step lossTrain lossTest trainB testB n s0).1 = epochState step trainB s0 n := by
  intro n
  induction n with
  | zero => intro s0; rfl
  | succ n ih =>
    intro s0
    simp only [trainLoop]
    rw [ih, runTrainEpoch_fst, epochState_shift]

theorem trainLoop_lengths {σ β : Type} (step : σ → β → σ) (lossTrain lossTest : σ → β → ℚ)
    (trainB testB : List β) :
    ∀ (n : ℕ) (s0 : σ),
      (trainLoop step lossTrain lossTest trainB testB n s0).2.train_losses.length = n ∧
      (trainLoop step lossTrain lossTest trainB testB n s0).2.test_losses.length = n := by
  intro n
  induction n with
  | zero => intro s0; exact ⟨rfl, rfl⟩
  | succ n ih =>
    intro s0
    simp only [trainLoop, List.length_cons]
    exact ⟨by rw [(ih _).1], by rw [(ih _).2]⟩

theorem trainLoop_train_getD {σ β : Type} (step : σ → β → σ)
    (lossTrain lossTest : σ → β → ℚ) (trainB testB : List β) :
    ∀ (n : ℕ) (s0 : σ) (e : ℕ), e < n →
      (trainLoop step lossTrain lossTest trainB testB n s0).2.train_losses.getD e 0 =
        listMean (runTrainEpoch step lossTrain trainB (epochState step trainB s0 e)).2 := by
  intro n
  induction n with
  | zero => intro s0 e he; omega
  | succ n ih =>
    intro s0 e he
    cases e with
    | zero => rfl
    | succ e =>
      simp only [trainLoop, List.getD_cons_succ]
      rw [ih _ e (by omega), runTrainEpoch_fst, epochState_shift]

theorem trainLoop_test_getD {σ β : Type} (step : σ → β → σ)
    (lossTrain lossTest : σ → β → ℚ) (trainB testB : List β) :
    ∀ (n : ℕ) (s0 : σ) (e : ℕ), e < n →
      (trainLoop step lossTrain lossTest trainB testB n s0).2.test_losses.getD e 0 =
        listMean (testB.map (lossTest (epochState step trainB s0 (e + 1)))) := by
  intro n
  induction n with
  | zero => intro s0 e he; omega
  | succ n ih =>
    intro s0 e he
    cases e with
    | zero =>
      simp only [trainLoop, List.getD_cons_zero]
      rw [runTrainEpoch_fst]
      rfl
    | succ e =>
      simp only [trainLoop, List.getD_cons_succ]
      rw [ih _ e (by omega), runTrainEpoch_fst, epochState_shift]

theorem trainLoop_test_congr {σ β : Type} (step : σ → β → σ)
    (lossTrain lossTest : σ → β → ℚ) (trainB testB testB' : List β)
    (hts : ∀ s : σ, testB.map (lossTest s) = testB'.map (lossTest s)) :
    ∀ (n : ℕ) (s0 : σ),
      trainLoop step lossTrain lossTest trainB testB n s0 =
        trainLoop step lossTrain lossTest trainB testB' n s0 := by
  intro n
  induction n with
  | zero => intro s0; rfl
  | succ n ih =>
    intro s0
    simp only [trainLoop]
    rw [ih, hts]

/-- C7: both training loops accumulate scalar loss values per epoch: for
every run with `max_epochs = n`, each of the two result lists holds
exactly `n` entries, and the entry for epoch `e` is the mean of the
per-batch loss values recorded during epoch `e` — for the train list the
losses recorded while folding over the train batches from the state the
epoch starts in, for the test list the losses of the test batches
evaluated with the state the epoch ends in. -/
theorem C7_epoch_means {σ τ α β γ : Type}
    (fwdA : σ → α → α) (critA : α → α → ℚ) (stepA : σ → α × γ → σ)
    (trainA testA : List (α × γ)) (sA : σ)
    (fwdR : τ → β → β) (critR : β → β → ℚ) (stepR : τ → β × β → τ)
    (trainR testR : List (β × β)) (sR : τ)
    (n e : ℕ) (he : e < n) :
    ((train_autoencoder fwdA critA stepA trainA testA n sA).2.train_losses.length = n ∧
     (train_autoencoder fwdA critA stepA trainA testA n sA).2.test_losses.length = n ∧
     (train_autoencoder fwdA critA stepA trainA testA n sA).2.train_losses.getD e 0 =
       listMean (runTrainEpoch stepA (fun s b => critA (fwdA s b.1) b.1) trainA
         (epochState stepA trainA sA e)).2 ∧
     (train_autoencoder fwdA critA stepA trainA testA n sA).2.test_losses.getD e 0 =
       listMean (testA.map
         (fun b => critA (fwdA (epochState stepA trainA sA (e + 1)) b.1) b.1))) ∧
    ((train_regression fwdR critR stepR trainR testR n sR).2.train_losses.length = n ∧
     (train_regression fwdR critR stepR trainR testR n sR).2.test_losses.length = n ∧
     (train_regression fwdR critR stepR trainR testR n sR).2.train_losses.getD e 0 =
       listMean (runTrainEpoch stepR (fun s b => critR (fwdR s b.1) b.2) trainR
         (epochState stepR trainR sR e)).2 ∧
     (train_regression fwdR critR stepR trainR testR n sR).2.test_losses.getD e 0 =
       listMean (testR.map
         (fun b => critR (fwdR (epochState stepR trainR sR (e + 1)) b.1) b.1))) := by
  simp only [train_autoencoder, train_regression]
  exact ⟨⟨(trainLoop_lengths _ _ _ _ _ _ _).1, (trainLoop_lengths _ _ _ _ _ _ _).2,
      trainLoop_train_getD _ _ _ _ _ _ _ _ he, trainLoop_test_getD _ _ _ _ _ _ _ _ he⟩,
    ⟨(trainLoop_lengths _ _ _ _ _ _ _).1, (trainLoop_lengths _ _ _ _ _ _ _).2,
      trainLoop_train_getD _ _ _ _ _ _ _ _ he, trainLoop_test_getD _ _ _ _ _ _ _ _ he⟩⟩

/-- Concrete model function for training-loop witnesses: the identity on
the input. -/
def exTfwd : Unit → ℚ → ℚ := fun _ a => a

/-- Concrete loss for training-loop witnesses. -/
def exTcrit : ℚ → ℚ → ℚ := fun a b => a - b

/-- Concrete optimiser step for training-loop witnesses: a stateless
update. -/
def exTstep : Unit → ℚ × ℚ → Unit := fun _ _ => ()

/-- Concrete one-batch train loader. -/
def exTtrain : List (ℚ × ℚ) := [(1, 2)]

/-- Concrete one-batch test loader. -/
def exTtest : List (ℚ × ℚ) := [(3, 4)]

/-- C7 (witness): the epoch-means theorem at a concrete one-epoch run. -/
theorem C7_witness :
    0 < 1 ∧
    (train_autoencoder exTfwd exTcrit exTstep exTtrain exTtest 1 ()).2.train_losses.length = 1 ∧
    (train_regression exTfwd exTcrit exTstep exTtrain exTtest 1 ()).2.test_losses.getD 0 0 =
      listMean (exTtest.map
        (fun b => exTcrit (exTfwd (epochState exTstep exTtrain () (0 + 1)) b.1) b.1)) := by
  have h := C7_epoch_means exTfwd exTcrit exTstep exTtrain exTtest ()
    exTfwd exTcrit exTstep exTtrain exTtest () 1 0 (by norm_num)
  exact ⟨by norm_num, h.1.1, h.2.2.2.2⟩

/-- C8: in `train_regression` the recorded test loss for every epoch is
the mean of `crit (model X_test) X_test` over the test batches — the
prediction is compared against the input batch, not against the
regression target — and the whole run, results and final state alike, is
unchanged when the targets of the test batches are replaced by arbitrary
other values. -/
theorem C8_test_loss_against_input {σ α : Type} (modelF : σ → α → α)
    (crit : α → α → ℚ) (optStep : σ → α × α → σ)
    (trainB testB testB' : List (α × α)) (n : ℕ) (s0 : σ) (e : ℕ) (he : e < n)
    (hfst : testB.map Prod.fst = testB'.map Prod.fst) :
    (train_regression modelF crit optStep trainB testB n s0).2.test_losses.getD e 0 =
      listMean (testB.map
        (fun b => crit (modelF (epochState optStep trainB s0 (e + 1)) b.1) b.1)) ∧
    train_regression modelF crit optStep trainB testB n s0 =
      train_regression modelF crit optStep trainB testB' n s0 := by
  constructor
  · exact trainLoop_test_getD _ _ _ _ _ _ _ _ he
  · apply trainLoop_test_congr
    intro s
    have h1 : ∀ (t : List (α × α)), t.map (fun b => crit (modelF s b.1) b.1) =
        (t.map Prod.fst).map (fun a => crit (modelF s a) a) := by
      intro t
      rw [List.map_map]
      rfl
    rw [h1 testB, h1 testB', hfst]

/-- Concrete test loader sharing inputs with `exT8test'` but not
targets. -/
def exT8test : List (ℚ × ℚ) := [(2, 5)]

/-- Concrete test loader sharing inputs with `exT8test` but not
targets. -/
def exT8test' : List (ℚ × ℚ) := [(2, 9)]

/-- C8 (witness): the theorem at a concrete run whose two test loaders
differ only in their targets. -/
theorem C8_witness :
    0 < 1 ∧ exT8test.map Prod.fst = exT8test'.map Prod.fst ∧
    train_regression exTfwd exTcrit exTstep exTtrain exT8test 1 () =
      train_regression exTfwd exTcrit exTstep exTtrain exT8test' 1 () := by
  have hfst : exT8test.map Prod.fst = exT8test'.map Prod.fst := by
    simp [exT8test, exT8test']
  have h := C8_test_loss_against_input exTfwd exTcrit exTstep exTtrain
    exT8test exT8test' 1 () 0 (by norm_num) hfst
  exact ⟨by norm_num, hfst, h.2⟩

/-- C10: a frame property of `train_regression`.  The state is split into
the parameters the optimiser was built from (`plainfcn.parameters()`,
first component) and the parameters of the attention model being run
(second component).  `torch.optim.AdamW(plainfcn.parameters())` only ever
writes the tensors registered with it, so its step preserves the second
component; under that hypothesis the attention model's parameters at the
start of every epoch and in the final returned state equal their initial
values — training `attmodel` or `tattmodel` with such an optimiser never
changes their parameters. -/
theorem C10_attention_params_unchanged {P A α : Type} (modelF : P × A → α → α)
    (crit : α → α → ℚ) (optStep : P × A → α × α → P × A)
    (hstep : ∀ s b, (optStep s b).2 = s.2)
    (trainB testB : List (α × α)) (n : ℕ) (s0 : P × A) :
    (∀ e, (epochState optStep trainB s0 e).2 = s0.2) ∧
    ((train_regression modelF crit optStep trainB testB n s0).1).2 = s0.2 := by
  have hfold : ∀ (bs : List (α × α)) (s : P × A), (bs.foldl optStep s).2 = s.2 := by
    intro bs
    induction bs with
    | nil => intro s; rfl
    | cons b t ih => intro s; rw [List.foldl_cons, ih, hstep]
  have hepoch : ∀ e, (epochState optStep trainB s0 e).2 = s0.2 := by
    intro e
    induction e with
    | zero => rfl
    | succ e ih =>
      show (trainB.foldl optStep (epochState optStep trainB s0 e)).2 = s0.2
      rw [hfold, ih]
  refine ⟨hepoch, ?_⟩
  show (trainLoop _ _ _ _ _ n s0).1.2 = s0.2
  rw [trainLoop_fst]
  exact hepoch n

/-- Concrete model function for the C10 witness, reading the attention
parameters in the second component. -/
def exC10fwd : ℚ × ℚ → ℚ → ℚ := fun s a => s.2 * a

/-- Concrete optimiser step for the C10 witness: it updates only the
first component, as an optimiser built from `plainfcn.parameters()`
does. -/
def exC10step : ℚ × ℚ → ℚ × ℚ → ℚ × ℚ := fun s b => (s.1 + b.1, s.2)

/-- C10 (witness): the frame theorem at a concrete two-epoch run. -/
theorem C10_witness :
    (∀ (s : ℚ × ℚ) (b : ℚ × ℚ), (exC10step s b).2 = s.2) ∧
    ((train_regression exC10fwd exTcrit exC10step exTtrain exTtest 2 (0, 7)).1).2 = (0, 7).2 :=
  ⟨fun _ _ => rfl,
    (C10_attention_params_unchanged exC10fwd exTcrit exC10step (fun _ _ => rfl)
      exTtrain exTtest 2 (0, 7)).2⟩

end Notebooks
